import Mathlib

/-
Verification development for the sheetsql repository (Go).

The code under verification lives in two files:
  * the query engine (`Query`, `matchesWhere`, `compareValues`,
    `mapRowToStruct`, `setFieldValue`, `Get`, `Update`, `Delete`);
  * the SQL text front end (`SQLParser.parseWhere` and friends).

Modelling decisions (shallow embedding):
  * Machine integers (Go `int`, `int64`) are modelled as `Int`; the
    `strconv` range check is kept explicit (`± 2^63`).
  * Go `float64` is modelled as `ℚ`: `strconv.ParseFloat` becomes an
    exact decimal/exponent parser into the rationals, and float
    comparison becomes exact rational comparison.  This idealisation
    diverges from IEEE doubles only when two distinct decimal literals
    round to the same double, or on overflow to infinity; no claim in
    scope exercises those corners.  Hex floats, `inf`/`nan` spellings
    and digit-separating underscores are omitted from the parse model.
  * Cells fetched from the remote sheet are `interface{}` values that
    the code immediately renders with `fmt.Sprintf("%v")`; rows are
    therefore modelled as `List String` directly.
  * Go string ordering is byte-wise lexicographic; on valid UTF-8 this
    agrees with code-point order, which is what the model uses.
  * `strings.ToLower` / `unicode` case folding is modelled on the ASCII
    range (the only range any claim touches).
  * Network I/O (the Sheets service) is abstracted: fetched values are
    passed in as arguments and writes are returned as data; a write
    that the real code would send is modelled as always succeeding.
  * Go's regexp engine (RE2 with leftmost-first submatch semantics) is
    modelled by direct backtracking matchers specialised to the two
    patterns the code compiles: the `\s+AND\s+` splitter and the
    condition shape `(\w+)\s*(=|!=|<>|<=|>=|<|>|LIKE)\s*(.+)`.
-/

namespace SheetSQL

/-! ## Go primitive string helpers -/

/-- Character class of RE2 `\s`, namely tab, newline, form feed,
carriage return and space. -/
def goIsSpace (c : Char) : Bool :=
  c = ' ' ∨ c = '\t' ∨ c = '\n' ∨ c = Char.ofNat 12 ∨ c = Char.ofNat 13

/-- Character class of RE2 `\w`: ASCII letters, digits and underscore. -/
def isWordChar (c : Char) : Bool :=
  ('a' ≤ c ∧ c ≤ 'z') ∨ ('A' ≤ c ∧ c ≤ 'Z') ∨ ('0' ≤ c ∧ c ≤ '9') ∨ c = '_'

/-- ASCII lowering of one character, modelling the case folding used by
`strings.ToLower` on the inputs in scope. -/
def goToLower (c : Char) : Char :=
  if 'A' ≤ c ∧ c ≤ 'Z' then Char.ofNat (c.toNat + 32) else c

/-- Model of `strings.ToLower`. -/
def goStrToLower (s : String) : String :=
  String.mk (s.data.map goToLower)

/-- Byte-wise (equivalently code-point-wise) strict ordering of strings,
modelling Go's `<` on `string`. -/
def charListLt : List Char → List Char → Bool
  | [], [] => false
  | [], _ :: _ => true
  | _ :: _, [] => false
  | a :: as, b :: bs => if a < b then true else if b < a then false else charListLt as bs

/-- Model of Go `a < b` on strings. -/
def goStrLt (a b : String) : Bool := charListLt a.data b.data

/-- Substring search over character lists: `true` iff `needle` occurs
contiguously inside the list. -/
def containsAux (needle : List Char) : List Char → Bool
  | [] => needle.isEmpty
  | c :: rest => needle.isPrefixOf (c :: rest) || containsAux needle rest

/-- Model of `strings.Contains s substr`. -/
def goContains (s substr : String) : Bool := containsAux substr.data s.data

/-- Model of `strings.Trim s cutset`: remove all leading and all
trailing characters that belong to the cutset. -/
def goTrim (s : String) (cutset : List Char) : String :=
  String.mk (((s.data.dropWhile (· ∈ cutset)).reverse.dropWhile (· ∈ cutset)).reverse)

/-- Model of `strings.TrimSpace` (ASCII whitespace range). -/
def goTrimSpace (s : String) : String :=
  String.mk (((s.data.dropWhile (fun c => goIsSpace c)).reverse.dropWhile
    (fun c => goIsSpace c)).reverse)

/-! ## Go numeric and boolean parsing (`strconv`) -/

/-- Split off the maximal leading run of ASCII digits. -/
def takeDigits : List Char → List Char × List Char
  | [] => ([], [])
  | c :: rest =>
    if c.isDigit then
      let (ds, r) := takeDigits rest
      (c :: ds, r)
    else ([], c :: rest)

/-- Decimal value of a digit run. -/
def digitsToNat (ds : List Char) : Nat :=
  ds.foldl (fun acc c => acc * 10 + (c.toNat - 48)) 0

/-- Model of `strconv.Atoi` (equivalently `strconv.ParseInt _ 10 64`):
optional sign, a non-empty digit run consuming the whole string, and
the 64-bit signed range check. -/
def goAtoi (s : String) : Option Int :=
  match s.data with
  | [] => none
  | l =>
    let (neg, l) :=
      match l with
      | '+' :: rest => (false, rest)
      | '-' :: rest => (true, rest)
      | _ => (false, l)
    let (ds, rest) := takeDigits l
    if ds.isEmpty ∨ ¬ rest.isEmpty then none
    else
      let v : Int := if neg then -(digitsToNat ds : Int) else (digitsToNat ds : Int)
      if -(2 ^ 63) ≤ v ∧ v < 2 ^ 63 then some v else none

/-- Model of `strconv.ParseFloat _ 64` on decimal syntax, producing the
exact rational value: optional sign, integer digits, optional fraction,
optional decimal exponent; the whole string must be consumed and at
least one mantissa digit must be present. -/
def goParseFloat (s : String) : Option ℚ :=
  match s.data with
  | [] => none
  | l =>
    let (neg, l) :=
      match l with
      | '+' :: rest => (false, rest)
      | '-' :: rest => (true, rest)
      | _ => (false, l)
    let (ip, l) := takeDigits l
    let (fp, l) :=
      match l with
      | '.' :: rest => takeDigits rest
      | _ => (([] : List Char), l)
    if ip.isEmpty ∧ fp.isEmpty then none
    else
      let (hasExp, eneg, ed, l) :=
        match l with
        | e :: rest =>
          if e = 'e' ∨ e = 'E' then
            let (eneg, rest) :=
              match rest with
              | '+' :: r => (false, r)
              | '-' :: r => (true, r)
              | _ => (false, rest)
            let (ed, r) := takeDigits rest
            (true, eneg, ed, r)
          else (false, false, ([] : List Char), e :: rest)
        | [] => (false, false, ([] : List Char), ([] : List Char))
      if hasExp ∧ ed.isEmpty then none
      else if ¬ l.isEmpty then none
      else
        let base := digitsToNat (ip ++ fp)
        let ex := digitsToNat ed
        let num : Int := if eneg then (base : Int) else (base : Int) * (10 ^ ex : Nat)
        let den : Nat := if eneg then 10 ^ (fp.length + ex) else 10 ^ fp.length
        let mag : ℚ := mkRat num den
        some (if neg then -mag else mag)

/-- Model of `strconv.ParseBool`: the exact literal set Go accepts. -/
def goParseBool (s : String) : Option Bool :=
  if s = "1" ∨ s = "t" ∨ s = "T" ∨ s = "TRUE" ∨ s = "true" ∨ s = "True" then some true
  else if s = "0" ∨ s = "f" ∨ s = "F" ∨ s = "FALSE" ∨ s = "false" ∨ s = "False" then
    some false
  else none

/-! ## Dynamic values and rendering (`fmt.Sprintf("%v")`) -/

/-- Tagged dynamic value, modelling the `interface{}` payload a
`WhereClause` carries after coercion. -/
inductive GoValue where
  | int (n : Int)
  | float (q : ℚ)
  | bool (b : Bool)
  | str (s : String)
deriving DecidableEq, Repr

/-- Fractional decimal digits of `r / d`, with fuel bounding the number
of emitted digits. -/
def fracDigits : Nat → Nat → Nat → List Char
  | 0, _, _ => []
  | _ + 1, 0, _ => []
  | fuel + 1, r, d =>
    let r10 := r * 10
    Char.ofNat (48 + r10 / d) :: fracDigits fuel (r10 % d) d

/-- Decimal rendering of a rational, modelling `fmt.Sprintf("%v")` of a
`float64` for values with a short exact decimal expansion (Go prints
the shortest round-tripping decimal; integers print with no point). -/
def renderRatGo (q : ℚ) : String :=
  let sign := if q < 0 then "-" else ""
  let n := q.num.natAbs
  let d := q.den
  let ip := n / d
  let r := n % d
  if r = 0 then sign ++ toString ip
  else sign ++ toString ip ++ "." ++ String.mk (fracDigits 20 r d)

/-- Model of `fmt.Sprintf("%v", v)` on the dynamic values in scope. -/
def render : GoValue → String
  | .int n => toString n
  | .float q => renderRatGo q
  | .bool b => if b then "true" else "false"
  | .str s => s

/-! ## Value coercion (`SQLParser.parseWhere`, sql.go lines 88-97) -/

/-- Coercion of a WHERE value token, mirroring the `if`/`else if` chain
in `parseWhere`: integer, then float, then boolean, then raw string. -/
def coerceValue (value : String) : GoValue :=
  match goAtoi value with
  | some n => .int n
  | none =>
    match goParseFloat value with
    | some q => .float q
    | none =>
      match goParseBool value with
      | some b => .bool b
      | none => .str value

/-! ## Ordering comparator (`Query.compareValues`) -/

/-- Lexicographic fallback of `compareValues`: the second `switch` in
the Go function, reached when at least one side fails to parse as a
float (or the operator is not an ordering operator).  Go `a >= b` on
strings is the negation of `a < b` in the total byte order. -/
def lexFallback (a b oper : String) : Bool :=
  if oper = ">" then goStrLt b a
  else if oper = "<" then goStrLt a b
  else if oper = ">=" then !(goStrLt a b)
  else if oper = "<=" then !(goStrLt b a)
  else false

/-- Numeric comparison dispatch on the four ordering operators,
written out separately so theorems can name the numeric branch. -/
def numericCompare (x y : ℚ) (oper : String) : Bool :=
  if oper = ">" then decide (x > y)
  else if oper = "<" then decide (x < y)
  else if oper = ">=" then decide (x ≥ y)
  else if oper = "<=" then decide (x ≤ y)
  else false

/-- Model of `Query.compareValues`: parse both sides as floats; if
both succeed compare numerically and return from the first `switch`;
otherwise fall through to the lexicographic `switch`. -/
def compareValues (a b oper : String) : Bool :=
  match goParseFloat a, goParseFloat b with
  | some aF, some bF =>
    if oper = ">" then decide (aF > bF)
    else if oper = "<" then decide (aF < bF)
    else if oper = ">=" then decide (aF ≥ bF)
    else if oper = "<=" then decide (aF ≤ bF)
    else lexFallback a b oper
  | _, _ => lexFallback a b oper

/-! ## Predicate model and evaluator (`WhereClause`, `Query.matchesWhere`) -/

/-- Model of the `WhereClause` struct. -/
structure WhereClause where
  Column : String
  Operator : String
  Value : GoValue
deriving DecidableEq, Repr

/-- Model of the `Query` struct.  The `client` pointer is dropped (pure
model); the Go field `where` is spelled `whereClauses` because `where`
is a Lean keyword.  `limit` and `offset` are Go `int`s. -/
structure Query where
  sheetName : String
  whereClauses : List WhereClause
  limit : Int
  offset : Int
deriving Repr

/-- Model of the `fieldMap` built from the header row: Go map insertion
in index order means the last occurrence of a duplicate header wins. -/
def buildFieldMap (headers : List String) (col : String) : Option Nat :=
  headers.enum.foldl (fun acc p => if p.2 = col then some p.1 else acc) none

/-- Evaluation of one `WhereClause` against a row, mirroring one
iteration of the loop in `Query.matchesWhere`: a missing column or an
out-of-range index skips the clause (vacuously satisfied); the
`switch` on the operator has no default case, so an unknown operator
is also vacuously satisfied. -/
def evalClause (clause : WhereClause) (row : List String) (fm : String → Option Nat) : Bool :=
  match fm clause.Column with
  | none => true
  | some colIndex =>
    if row.length ≤ colIndex then true
    else
      let cellValue := row.getD colIndex ""
      let expectedValue := render clause.Value
      if clause.Operator = "=" ∨ clause.Operator = "==" then cellValue == expectedValue
      else if clause.Operator = "!=" then !(cellValue == expectedValue)
      else if clause.Operator = ">" then compareValues cellValue expectedValue ">"
      else if clause.Operator = "<" then compareValues cellValue expectedValue "<"
      else if clause.Operator = ">=" then compareValues cellValue expectedValue ">="
      else if clause.Operator = "<=" then compareValues cellValue expectedValue "<="
      else if clause.Operator = "LIKE" then
        goContains (goStrToLower cellValue) (goStrToLower expectedValue)
      else true

/-- Model of `Query.matchesWhere`: the Go loop returns `false` as soon
as one clause fails and `true` after the loop, i.e. the conjunction of
all clauses.  (The Go signature also receives `headers`, which the
body only uses through `fieldMap`.) -/
def Query.matchesWhere (q : Query) (row : List String) (fm : String → Option Nat) : Bool :=
  q.whereClauses.all (fun clause => evalClause clause row fm)

/-! ## Record binder (`Query.mapRowToStruct`, `Query.setFieldValue`) -/

/-- The reflect kinds `setFieldValue` dispatches on; `other` stands for
every kind outside the `switch`, which hits the default error case. -/
inductive FieldKind where
  | str
  | int
  | float
  | bool
  | other
deriving DecidableEq, Repr

/-- Value stored in one struct field after binding. -/
inductive FieldVal where
  | str (s : String)
  | int (n : Int)
  | float (q : ℚ)
  | bool (b : Bool)
  | other
deriving DecidableEq, Repr

/-- Zero value of each supported kind (what `reflect.New` initialises
a fresh struct element to). -/
def zeroVal : FieldKind → FieldVal
  | .str => .str ""
  | .int => .int 0
  | .float => .float 0
  | .bool => .bool false
  | .other => .other

/-- One declared field of the destination struct type: its Go name,
its `sheet` tag (empty string when absent) and its kind; `canSet`
models exported-ness for `reflect`. -/
structure FieldSpec where
  name : String
  tag : String
  kind : FieldKind
  canSet : Bool
deriving DecidableEq, Repr

/-- Column binding of a field: the `sheet` tag when present, the field
name otherwise. -/
def FieldSpec.binding (f : FieldSpec) : String :=
  if f.tag = "" then f.name else f.tag

/-- Model of `Query.setFieldValue`: convert a cell's string form to the
field's kind.  Parse errors are surfaced; the error text stands in for
the `strconv` error the real code returns. -/
def setFieldValue (kind : FieldKind) (value : String) : Except String FieldVal :=
  match kind with
  | .str => .ok (.str value)
  | .int =>
    if value = "" then .ok (.int 0)
    else
      match goAtoi value with
      | some n => .ok (.int n)
      | none => .error ("parsing " ++ value ++ ": invalid syntax")
  | .float =>
    if value = "" then .ok (.float 0)
    else
      match goParseFloat value with
      | some q => .ok (.float q)
      | none => .error ("parsing " ++ value ++ ": invalid syntax")
  | .bool =>
    if value = "" then .ok (.bool false)
    else
      match goParseBool value with
      | some b => .ok (.bool b)
      | none => .error ("parsing " ++ value ++ ": invalid syntax")
  | .other => .error "unsupported field type"

/-- One iteration of the field loop in `Query.mapRowToStruct`: an
unsettable field, an unbound column or an out-of-range index leaves
the zero value; otherwise the cell is converted, and a conversion
error is wrapped naming the field. -/
def processField (f : FieldSpec) (row : List String) (fm : String → Option Nat) :
    Except String FieldVal :=
  if f.canSet = false then .ok (zeroVal f.kind)
  else
    match fm f.binding with
    | none => .ok (zeroVal f.kind)
    | some colIndex =>
      if row.length ≤ colIndex then .ok (zeroVal f.kind)
      else
        match setFieldValue f.kind (row.getD colIndex "") with
        | .ok v => .ok v
        | .error e => .error ("failed to set field " ++ f.name ++ ": " ++ e)

/-- Model of `Query.mapRowToStruct`: process the declared fields in
order, stopping at the first error. -/
def mapRowToStruct (fields : List FieldSpec) (row : List String)
    (fm : String → Option Nat) : Except String (List FieldVal) :=
  fields.mapM (fun f => processField f row fm)

/-! ## Read path (`Query.Get`) -/

/-- The row loop of `Query.Get` over the data rows (header already
removed).  `rowIndex` is the position in the unfiltered data-row
sequence, `acc` is the destination slice (Go appends to the slice the
caller passed in, so it starts at whatever the caller already holds).
In order: rows failing the predicates are skipped; matching rows whose
position is below `offset` are skipped; once the slice length has
reached `limit` (when positive) the loop breaks and `Get` returns
normally; otherwise the row is mapped and appended, a mapping error
aborting the whole call. -/
def getLoop (q : Query) (fm : String → Option Nat) (fields : List FieldSpec) :
    List (List String) → Nat → List (List FieldVal) → Except String (List (List FieldVal))
  | [], _, acc => .ok acc
  | row :: rest, rowIndex, acc =>
    if q.matchesWhere row fm = false then getLoop q fm fields rest (rowIndex + 1) acc
    else if 0 < q.offset ∧ (rowIndex : Int) < q.offset then
      getLoop q fm fields rest (rowIndex + 1) acc
    else if 0 < q.limit ∧ q.limit ≤ (acc.length : Int) then .ok acc
    else
      match mapRowToStruct fields row fm with
      | .error e => .error ("failed to map row to struct: " ++ e)
      | .ok elem => getLoop q fm fields rest (rowIndex + 1) (acc ++ [elem])

/-- Model of `Query.Get`.  `values` is the fetched cell range
(`resp.Values`, first row the header), `fields` describes the element
struct type of the destination slice and `dest` is the slice's current
contents.  An empty fetch returns the destination unchanged (Go
returns `nil` without touching the slice). -/
def Query.Get (q : Query) (values : List (List String)) (fields : List FieldSpec)
    (dest : List (List FieldVal)) : Except String (List (List FieldVal)) :=
  match values with
  | [] => .ok dest
  | headers :: dataRows => getLoop q (buildFieldMap headers) fields dataRows 0 dest

/-! ## Write paths (`Query.Update`, `Query.Delete`)

Writes to the remote service are abstracted as always succeeding, so
these models return the write requests the code would send. -/

/-- One data field of the value struct passed to `Update` (name, tag
and the dynamic value `fieldValue.Interface()` yields). -/
structure DataField where
  name : String
  tag : String
  value : GoValue
deriving Repr

/-- Column binding of a data field (tag, or name when the tag is
empty). -/
def DataField.binding (f : DataField) : String :=
  if f.tag = "" then f.name else f.tag

/-- The matching rows of the update/delete scan together with their
one-based spreadsheet row numbers (`rowIndex + 2`: one for the header
row, one for one-based addressing). -/
def collectMatches (q : Query) (fm : String → Option Nat) :
    List (List String) → Nat → List (Nat × List String)
  | [], _ => []
  | row :: rest, rowIndex =>
    if q.matchesWhere row fm then
      (rowIndex + 2, row) :: collectMatches q fm rest (rowIndex + 1)
    else collectMatches q fm rest (rowIndex + 1)

/-- The updated row `Update` builds for one matching row: a slice of
`len(headers)` cells copied from the row (`nil`, modelled as `none`,
past the row's end) with every bound column overwritten by the struct
value. -/
def updateRow (headers : List String) (fm : String → Option Nat)
    (data : List DataField) (row : List String) : List (Option GoValue) :=
  let base := (List.range headers.length).map
    (fun i => if i < row.length then some (GoValue.str (row.getD i "")) else none)
  data.foldl
    (fun acc f =>
      match fm f.binding with
      | none => acc
      | some i => acc.set i (some f.value))
    base

/-- Model of `Query.Update`: an empty fetch is an error; otherwise every
matching data row produces an update request, and if no row matched the
call fails with the no-match error instead of succeeding silently. -/
def Query.Update (q : Query) (values : List (List String)) (data : List DataField) :
    Except String (List (Nat × List (Option GoValue))) :=
  match values with
  | [] => .error "no data found in sheet"
  | headers :: dataRows =>
    let fm := buildFieldMap headers
    let updates := (collectMatches q fm dataRows 0).map
      (fun p => (p.1, updateRow headers fm data p.2))
    if updates.isEmpty then .error "no rows matched the where conditions"
    else .ok updates

/-- Model of `Query.Delete`: an empty fetch is an error; otherwise the
matching row numbers are collected and deleted bottom-up (the model
returns them in deletion order), and if no row matched the call fails
with the no-match error. -/
def Query.Delete (q : Query) (values : List (List String)) : Except String (List Nat) :=
  match values with
  | [] => .error "no data found in sheet"
  | headers :: dataRows =>
    let fm := buildFieldMap headers
    let rowsToDelete := (collectMatches q fm dataRows 0).map (fun p => p.1)
    if rowsToDelete.isEmpty then .error "no rows matched the where conditions"
    else .ok rowsToDelete.reverse

/-! ## WHERE-clause text front end (`SQLParser.parseWhere`)

Go compiles two patterns here.  The splitter `(?i)\s+AND\s+` and the
condition shape `(\w+)\s*(=|!=|<>|<=|>=|<|>|LIKE)\s*(.+)` (note: no
`(?i)` flag on the latter, so the operator literals, `LIKE` included,
are case-sensitive).  Both are modelled as direct backtracking
matchers with RE2's leftmost-first submatch semantics. -/

/-- Operator alternation of the condition pattern, in source order;
the order is the backtracking preference order. -/
def opAlternatives : List String :=
  ["=", "!=", "<>", "<=", ">=", "<", ">", "LIKE"]

/-- Maximal leading whitespace run and the remainder. -/
def takeWsRun (l : List Char) : List Char × List Char :=
  (l.takeWhile (fun c => goIsSpace c), l.dropWhile (fun c => goIsSpace c))

/-- Maximal leading word-character run and the remainder. -/
def takeWordRun (l : List Char) : List Char × List Char :=
  (l.takeWhile (fun c => isWordChar c), l.dropWhile (fun c => isWordChar c))

/-- Match of the trailing `\s*(.+)` of the condition pattern against
the text after the operator.  `\s*` is greedy but backtracks; `.`
matches every character except newline; `(.+)` is greedy and last, so
it captures up to the next newline (or the end). -/
def matchValue (rest : List Char) : Option String :=
  let (ws, rem) := takeWsRun rest
  match rem with
  | _ :: _ => some (String.mk (rem.takeWhile (fun c => c ≠ '\n')))
  | [] =>
    match ws.reverse.dropWhile (fun c => c = '\n') with
    | [] => none
    | c :: _ => some (String.mk [c])

/-- Try the operator alternatives in preference order at the given
position: the first alternative that is a literal prefix and lets the
rest of the pattern match wins. -/
def tryOps (ops : List String) (rest : List Char) : Option (String × String) :=
  match ops with
  | [] => none
  | op :: more =>
    if op.data.isPrefixOf rest then
      match matchValue (rest.drop op.length) with
      | some v => some (op, v)
      | none => tryOps more rest
    else tryOps more rest

/-- Backtrack over the length taken by the greedy `(\w+)` (longest
first), matching `\s*` then the operator then the value after it. -/
def tryWordLens (w : List Char) (rest : List Char) : Nat → Option (String × String × String)
  | 0 => none
  | len + 1 =>
    let after := w.drop (len + 1) ++ rest
    let (_, afterWs) := takeWsRun after
    match tryOps opAlternatives afterWs with
    | some (op, v) => some (String.mk (w.take (len + 1)), op, v)
    | none => tryWordLens w rest len

/-- Attempt a match of the whole condition pattern anchored at the
head of `l`. -/
def tryCondAt (l : List Char) : Option (String × String × String) :=
  let (w, rest) := takeWordRun l
  if w.isEmpty then none else tryWordLens w rest w.length

/-- Model of `FindStringSubmatch` for the condition pattern: the
leftmost starting position admitting a match wins, and at that
position the backtracking preference order decides the captures
(column, operator, value). -/
def matchCond : List Char → Option (String × String × String)
  | [] => none
  | c :: rest =>
    match tryCondAt (c :: rest) with
    | some r => some r
    | none => matchCond rest

/-- Match of the splitter pattern `(?i)\s+AND\s+` anchored at the head
of the list: one-or-more whitespace, `and` in any case, one-or-more
whitespace; returns the remainder after the (greedy) match. -/
def matchAndAt (l : List Char) : Option (List Char) :=
  match l with
  | c :: rest =>
    if goIsSpace c then
      match (rest.dropWhile (fun x => goIsSpace x)) with
      | a :: n :: d :: tail =>
        if (a = 'a' ∨ a = 'A') ∧ (n = 'n' ∨ n = 'N') ∧ (d = 'd' ∨ d = 'D') then
          match tail with
          | t :: tail2 =>
            if goIsSpace t then some (tail2.dropWhile (fun x => goIsSpace x)) else none
          | [] => none
        else none
      | _ => none
    else none
  | [] => none

/-- Scanning loop of `regexp.Split` for the splitter pattern: walk the
text, and at the leftmost position where the delimiter matches emit
the piece accumulated so far and continue after the match.  Each step
consumes at least one character, so fuel `length + 1` always suffices;
the fuel-exhausted branch is unreachable. -/
def splitAndAux : Nat → List Char → List Char → List (List Char)
  | 0, l, acc => [acc.reverse ++ l]
  | fuel + 1, l, acc =>
    match matchAndAt l with
    | some rem => acc.reverse :: splitAndAux fuel rem []
    | none =>
      match l with
      | [] => [acc.reverse]
      | c :: rest => splitAndAux fuel rest (c :: acc)

/-- Model of `regexp.MustCompile((?i)\s+AND\s+).Split(s, -1)`. -/
def splitAnd (l : List Char) : List (List Char) :=
  splitAndAux (l.length + 1) l []

/-- The cutset `'\"` passed to `strings.Trim` for the value token. -/
def quoteCutset : List Char := ['\'', '"']

/-- Parse of a single WHERE condition, mirroring one iteration of the
loop in `parseWhere`: trim, match the condition pattern (failure is
the syntax error naming the condition), strip quote characters from
both ends of the value capture, normalise `<>` to `!=`, and coerce the
value. -/
def parseWhereCondition (condition : String) : Except String WhereClause :=
  let condition := goTrimSpace condition
  match matchCond condition.data with
  | none => .error ("invalid WHERE condition: " ++ condition)
  | some (column, oper, value) =>
    let value := goTrim value quoteCutset
    let oper := if oper = "<>" then "!=" else oper
    .ok ⟨column, oper, coerceValue value⟩

/-- Model of `SQLParser.parseWhere`: split the clause on the
case-insensitive `AND` delimiter and parse each condition in order,
stopping at the first syntax error.  The resulting clauses are the
ones `query.Where` would have appended. -/
def parseWhere (whereClause : String) : Except String (List WhereClause) :=
  (splitAnd whereClause.data).mapM (fun condChars => parseWhereCondition (String.mk condChars))

/-- Modelled from the spec: the single-layer quote stripping the spec
describes for the value token ("a single layer of surrounding quotes
(`'` or `\"`) stripped") — remove exactly one leading and one trailing
quote character when the token is wrapped in a matching pair.  The
code instead calls `strings.Trim`, which strips all layers; this
definition exists to state that divergence. -/
def stripOneLayerQuotes (s : String) : String :=
  match s.data with
  | c :: rest =>
    if (c = '\'' ∨ c = '"') ∧ rest ≠ [] ∧ rest.getLast? = some c then
      String.mk rest.dropLast
    else s
  | [] => s

/-! ## Claims -/

/-- Claim C1: pagination over the fetched data rows is a single
in-order linear scan in which a row failing the predicates is skipped
without consuming offset or limit budget, a passing row whose
positional index in the unfiltered data-row sequence is below `offset`
is skipped positionally, the scan stops entirely once the result count
has reached a positive `limit`, and otherwise the row is appended; in
particular matching rows at unfiltered positions 0,2,4,6,8 with
offset 1 and limit 2 yield exactly the matches at positions 2 and 4. -/
theorem get_pagination_scan :
    (∀ q fm fields row rest (i : Nat) acc, q.matchesWhere row fm = false →
       getLoop q fm fields (row :: rest) i acc = getLoop q fm fields rest (i + 1) acc)
    ∧ (∀ q fm fields row rest (i : Nat) acc, q.matchesWhere row fm = true →
       0 < q.offset → (i : Int) < q.offset →
       getLoop q fm fields (row :: rest) i acc = getLoop q fm fields rest (i + 1) acc)
    ∧ (∀ q fm fields row rest (i : Nat) acc, q.matchesWhere row fm = true →
       ¬(0 < q.offset ∧ (i : Int) < q.offset) →
       0 < q.limit → q.limit ≤ (acc.length : Int) →
       getLoop q fm fields (row :: rest) i acc = .ok acc)
    ∧ (∀ q fm fields row rest (i : Nat) acc elem, q.matchesWhere row fm = true →
       ¬(0 < q.offset ∧ (i : Int) < q.offset) →
       ¬(0 < q.limit ∧ q.limit ≤ (acc.length : Int)) →
       mapRowToStruct fields row fm = .ok elem →
       getLoop q fm fields (row :: rest) i acc
         = getLoop q fm fields rest (i + 1) (acc ++ [elem]))
    ∧ Query.Get ⟨"T", [⟨"M", "=", .str "y"⟩], 2, 1⟩
        [["M", "I"],
         ["y", "0"], ["n", "1"], ["y", "2"], ["n", "3"], ["y", "4"],
         ["n", "5"], ["y", "6"], ["n", "7"], ["y", "8"]]
        [⟨"I", "", .str, true⟩] [] = .ok [[.str "2"], [.str "4"]] := by
  refine ⟨?_, ?_, ?_, ?_, rfl⟩
  · intro q fm fields row rest i acc h
    simp [getLoop, h]
  · intro q fm fields row rest i acc h hoff hi
    simp [getLoop, h, hoff, hi]
  · intro q fm fields row rest i acc h hskip hlim hlen
    simp [getLoop, h, hskip, hlim, hlen]
  · intro q fm fields row rest i acc elem h hskip hstop hmap
    simp [getLoop, h, hskip, hstop, hmap]

/-- Witness for C1: a concrete instance of the predicate-failure rule
(a non-matching row is passed over, advancing only the position). -/
theorem get_pagination_scan_witness :
    getLoop ⟨"T", [⟨"M", "=", GoValue.str "y"⟩], 2, 1⟩ (buildFieldMap ["M", "I"])
        [⟨"I", "", FieldKind.str, true⟩] [["n", "1"]] 1 []
      = getLoop ⟨"T", [⟨"M", "=", GoValue.str "y"⟩], 2, 1⟩ (buildFieldMap ["M", "I"])
        [⟨"I", "", FieldKind.str, true⟩] [] 2 [] :=
  get_pagination_scan.1 ⟨"T", [⟨"M", "=", GoValue.str "y"⟩], 2, 1⟩ (buildFieldMap ["M", "I"])
    [⟨"I", "", FieldKind.str, true⟩] ["n", "1"] [] 1 [] (by rfl)

/-- Claim C2: a predicate whose column is absent from the header map,
or whose resolved index is out of range for the row, is vacuously
satisfied, and the row's overall match result equals that of the same
query with the predicate removed. -/
theorem predicate_vacuous_on_missing_column
    (clause : WhereClause) (row : List String) (fm : String → Option Nat)
    (h : fm clause.Column = none ∨ ∃ i, fm clause.Column = some i ∧ row.length ≤ i) :
    evalClause clause row fm = true ∧
    ∀ name pre post lim off,
      Query.matchesWhere ⟨name, pre ++ clause :: post, lim, off⟩ row fm
        = Query.matchesWhere ⟨name, pre ++ post, lim, off⟩ row fm := by
  have hv : evalClause clause row fm = true := by
    rcases h with h | ⟨i, hi, hlen⟩
    · simp [evalClause, h]
    · simp [evalClause, hi, hlen]
  refine ⟨hv, ?_⟩
  intro name pre post lim off
  simp [Query.matchesWhere, hv]

/-- Witness for C2: the column `Nope` is absent from a header `A`, so
the clause is vacuously satisfied on a concrete row. -/
theorem predicate_vacuous_witness :
    evalClause ⟨"Nope", "=", GoValue.str "x"⟩ ["a"] (buildFieldMap ["A"]) = true :=
  (predicate_vacuous_on_missing_column ⟨"Nope", "=", GoValue.str "x"⟩ ["a"]
    (buildFieldMap ["A"]) (Or.inl (by rfl))).1

/-- Claim C3: for every pair of string representations and every
ordering operator among `>`, `<`, `>=`, `<=`, the comparator parses
both sides as floats, compares numerically when both parses succeed
and lexicographically otherwise, regardless of declared type; in
particular `compare "9" "10" ">"` is false (numeric) while
`compare "b" "a" ">"` is true (lexicographic). -/
theorem compareValues_numeric_else_lex :
    (∀ a b oper x y, oper ∈ [">", "<", ">=", "<="] →
       goParseFloat a = some x → goParseFloat b = some y →
       compareValues a b oper = numericCompare x y oper)
    ∧ (∀ a b oper, oper ∈ [">", "<", ">=", "<="] →
       goParseFloat a = none ∨ goParseFloat b = none →
       compareValues a b oper = lexFallback a b oper)
    ∧ compareValues "9" "10" ">" = false
    ∧ compareValues "b" "a" ">" = true := by
  refine ⟨?_, ?_, rfl, rfl⟩
  · intro a b oper x y hmem hx hy
    simp only [compareValues, hx, hy, numericCompare]
    simp only [List.mem_cons, List.not_mem_nil, or_false] at hmem
    rcases hmem with h | h | h | h <;> subst h <;> simp
  · intro a b oper _ hnone
    rcases hnone with h | h
    · simp only [compareValues, h]
    · rcases hx : goParseFloat a with _ | x <;> simp only [compareValues, hx, h]

/-- Witness for C3: both sides of `compare "2" "3" ">"` parse, so the
comparison is the numeric one. -/
theorem compareValues_numeric_witness :
    compareValues "2" "3" ">" = numericCompare (mkRat 2 1) (mkRat 3 1) ">" :=
  compareValues_numeric_else_lex.1 "2" "3" ">" (mkRat 2 1) (mkRat 3 1)
    (by simp) (by rfl) (by rfl)

/-- Claim C4: value coercion tries integer, then float, then boolean,
then falls back to the raw string, first success winning, and never
fails; in particular `18` coerces to an integer, `19.99` to a float,
`true` to a boolean and `New York` to a string. -/
theorem coerceValue_precedence :
    (∀ s n, goAtoi s = some n → coerceValue s = .int n)
    ∧ (∀ s x, goAtoi s = none → goParseFloat s = some x → coerceValue s = .float x)
    ∧ (∀ s b, goAtoi s = none → goParseFloat s = none → goParseBool s = some b →
        coerceValue s = .bool b)
    ∧ (∀ s, goAtoi s = none → goParseFloat s = none → goParseBool s = none →
        coerceValue s = .str s)
    ∧ coerceValue "18" = .int 18
    ∧ coerceValue "19.99" = .float (mkRat 1999 100)
    ∧ coerceValue "true" = .bool true
    ∧ coerceValue "New York" = .str "New York" := by
  refine ⟨?_, ?_, ?_, ?_, rfl, by decide, rfl, rfl⟩
  · intro s n h; simp [coerceValue, h]
  · intro s x h1 h2; simp [coerceValue, h1, h2]
  · intro s b h1 h2 h3; simp [coerceValue, h1, h2, h3]
  · intro s h1 h2 h3; simp [coerceValue, h1, h2, h3]

/-- Witness for C4: the integer stage wins on `7`. -/
theorem coerceValue_precedence_witness : coerceValue "7" = GoValue.int 7 :=
  coerceValue_precedence.1 "7" 7 (by rfl)

/-- Counterexample for C5: the claim says a condition written with
lowercase `like` parses successfully to a LIKE predicate, but the
condition pattern is compiled without a case-insensitivity flag, so
`Name like 'Jo'` matches no operator and the parse fails with the
syntax error naming the condition. -/
theorem lowercase_like_rejected :
    parseWhere "Name like 'Jo'" = .error "invalid WHERE condition: Name like 'Jo'" := rfl

/-- Claim C5 (amended): the parser splits conditions strictly on the
keyword `AND` (case-insensitive) and accepts a condition exactly when
the shape `column operator value` matches with operator among
`=`, `!=`, `<>`, `<=`, `>=`, `<`, `>`, `LIKE`, where all operator
literals — `LIKE` included — are matched case-sensitively; `<>` is
normalised to `!=`; a condition not matching the shape fails with a
syntax error naming the offending condition. -/
theorem parseWhere_grammar_amended :
    (∀ condition col oper value,
       matchCond (goTrimSpace condition).data = some (col, oper, value) →
       parseWhereCondition condition =
         .ok ⟨col, if oper = "<>" then "!=" else oper, coerceValue (goTrim value quoteCutset)⟩)
    ∧ (∀ condition, matchCond (goTrimSpace condition).data = none →
       parseWhereCondition condition = .error ("invalid WHERE condition: " ++ goTrimSpace condition))
    ∧ parseWhere "Age > 18 and Name = 'John'"
        = .ok [⟨"Age", ">", .int 18⟩, ⟨"Name", "=", .str "John"⟩]
    ∧ parseWhere "Name LIKE 'Jo'" = .ok [⟨"Name", "LIKE", .str "Jo"⟩]
    ∧ parseWhereCondition "Age <> 18" = .ok ⟨"Age", "!=", .int 18⟩
    ∧ parseWhereCondition "bogus condition" = .error "invalid WHERE condition: bogus condition" := by
  refine ⟨?_, ?_, rfl, rfl, rfl, rfl⟩
  · intro condition col oper value h
    simp [parseWhereCondition, h]
  · intro condition h
    simp [parseWhereCondition, h]

/-- Witness for C5: the shape-mismatch rule applied to a concrete
condition with no operator. -/
theorem parseWhere_grammar_witness :
    parseWhereCondition "nope" = .error "invalid WHERE condition: nope" :=
  parseWhere_grammar_amended.2.1 "nope" (by rfl)

/-- Counterexample for C6: the claim says exactly one layer of
surrounding quotes is stripped, so the token `''John''` would keep its
inner quotes; the code calls `strings.Trim` with the quote cutset,
which strips every leading and trailing quote character, producing
`John` rather than `'John'`. -/
theorem trim_strips_all_quote_layers :
    parseWhereCondition "Name = ''John''" = .ok ⟨"Name", "=", GoValue.str "John"⟩
    ∧ stripOneLayerQuotes "''John''" = "'John'"
    ∧ GoValue.str "John" ≠ GoValue.str "'John'" :=
  ⟨rfl, rfl, by decide⟩

/-- Decomposition of the double-ended trim: the input is the trimmed
core surrounded by (possibly empty) runs of cutset characters. -/
theorem trimAll_decomp (p : Char → Bool) (l : List Char) :
    ∃ pre post, l = pre ++ ((l.dropWhile p).reverse.dropWhile p).reverse ++ post
      ∧ (∀ c ∈ pre, p c = true) ∧ (∀ c ∈ post, p c = true) := by
  refine ⟨l.takeWhile p, ((l.dropWhile p).reverse.takeWhile p).reverse, ?_, ?_, ?_⟩
  · rw [List.append_assoc]
    conv_lhs => rw [← List.takeWhile_append_dropWhile p l]
    congr 1
    conv_lhs => rw [← List.reverse_reverse (l.dropWhile p),
      ← List.takeWhile_append_dropWhile p (l.dropWhile p).reverse]
    rw [List.reverse_append]
  · exact fun c hc => List.mem_takeWhile_imp hc
  · intro c hc
    rw [List.mem_reverse] at hc
    exact List.mem_takeWhile_imp hc

/-- Appending one cutset character on the right does not change the
double-ended trim. -/
theorem trimAll_snoc (p : Char → Bool) (l : List Char) (c : Char) (hc : p c = true) :
    ((l ++ [c]).dropWhile p).reverse.dropWhile p = (l.dropWhile p).reverse.dropWhile p := by
  rw [List.dropWhile_append]
  by_cases h : (l.dropWhile p).isEmpty
  · rw [List.isEmpty_iff] at h
    simp [h, List.dropWhile_cons_of_pos hc]
  · simp only [h, Bool.false_eq_true, if_false]
    rw [List.reverse_append]
    simp [List.dropWhile_cons_of_pos hc]

/-- Claim C6 (amended): the value token is everything after the
operator to the end of the condition, and before coercion all
surrounding quote characters — single or double, any number of
layers, mixed — are stripped from both ends (`strings.Trim`
semantics): the trimmed token is the input minus leading and trailing
quote-character runs, and adding a surrounding quote character to
either end leaves the result unchanged; in particular `''John''`
becomes `John` (the inner quotes are lost, not retained). -/
theorem value_token_trim_amended :
    (∀ s : String, ∃ pre post,
       s.data = pre ++ (goTrim s quoteCutset).data ++ post
       ∧ (∀ c ∈ pre, c ∈ quoteCutset) ∧ (∀ c ∈ post, c ∈ quoteCutset))
    ∧ (∀ (s : String), ∀ c ∈ quoteCutset,
       goTrim (String.mk (c :: s.data)) quoteCutset = goTrim s quoteCutset
       ∧ goTrim (String.mk (s.data ++ [c])) quoteCutset = goTrim s quoteCutset)
    ∧ goTrim "''John''" quoteCutset = "John"
    ∧ goTrim "\"'John'\"" quoteCutset = "John" := by
  refine ⟨?_, ?_, rfl, rfl⟩
  · intro s
    obtain ⟨pre, post, heq, hpre, hpost⟩ :=
      trimAll_decomp (fun c => decide (c ∈ quoteCutset)) s.data
    exact ⟨pre, post, heq, fun c hc => by simpa using hpre c hc,
      fun c hc => by simpa using hpost c hc⟩
  · intro s c hc
    constructor
    · show String.mk _ = String.mk _
      congr 1
      simp [List.dropWhile_cons_of_pos (p := fun x => decide (x ∈ quoteCutset))
        (by simpa using hc)]
    · show String.mk _ = String.mk _
      congr 1
      rw [trimAll_snoc (fun x => decide (x ∈ quoteCutset)) s.data c (by simpa using hc)]

/-- Witness for C6: adding a leading quote character to a concrete
token does not change the trimmed result. -/
theorem value_token_trim_witness :
    goTrim (String.mk ('\'' :: ("x" : String).data)) quoteCutset = goTrim "x" quoteCutset :=
  (value_token_trim_amended.2.1 "x" '\'' (by decide)).1

/-- Claim C7: for a predicate whose column resolves to an in-range
cell, `=`/`==` holds iff the rendered cell and rendered value are
equal strings, `!=` iff they are not, and `LIKE` iff the rendered
value is a case-insensitive substring of the rendered cell with `%`
and `_` treated as literal characters; a row matches iff all
predicates hold.  The concrete cases show case-insensitive
containment, the absence of wildcard semantics, and string (not
numeric) equality. -/
theorem equality_like_predicates :
    (∀ clause row fm i, fm clause.Column = some i → i < row.length →
       ((clause.Operator = "=" ∨ clause.Operator = "==") →
          evalClause clause row fm = (row.getD i "" == render clause.Value))
       ∧ (clause.Operator = "!=" →
          evalClause clause row fm = !(row.getD i "" == render clause.Value))
       ∧ (clause.Operator = "LIKE" →
          evalClause clause row fm
            = goContains (goStrToLower (row.getD i "")) (goStrToLower (render clause.Value))))
    ∧ (∀ q row fm, Query.matchesWhere q row fm
        = q.whereClauses.all (fun c => evalClause c row fm))
    ∧ evalClause ⟨"C", "LIKE", .str "WORLD"⟩ ["Hello World"] (buildFieldMap ["C"]) = true
    ∧ evalClause ⟨"C", "LIKE", .str "a%c"⟩ ["abc"] (buildFieldMap ["C"]) = false
    ∧ evalClause ⟨"C", "LIKE", .str "a_c"⟩ ["abc"] (buildFieldMap ["C"]) = false
    ∧ evalClause ⟨"C", "=", .str "5"⟩ ["5.0"] (buildFieldMap ["C"]) = false := by
  refine ⟨?_, fun q row fm => rfl, rfl, rfl, rfl, rfl⟩
  intro clause row fm i hi hlen
  have hr : ¬ (row.length ≤ i) := by omega
  refine ⟨?_, ?_, ?_⟩
  · rintro (hop | hop) <;> simp [evalClause, hi, hr, hop]
  · intro hop; simp [evalClause, hi, hr, hop]
  · intro hop; simp [evalClause, hi, hr, hop]

/-- Witness for C7: a concrete `!=` predicate on an in-range cell
evaluates to the negated string equality. -/
theorem equality_like_predicates_witness :
    evalClause ⟨"C", "!=", GoValue.str "b"⟩ ["a"] (buildFieldMap ["C"]) =
      !(List.getD ["a"] 0 "" == render (GoValue.str "b")) :=
  ((equality_like_predicates.1 ⟨"C", "!=", GoValue.str "b"⟩ ["a"] (buildFieldMap ["C"]) 0
    (by rfl) (by decide)).2.1) rfl

/-- Claim C8: in the record binder's read direction an unsettable
field, an unbound/absent column or an out-of-range index leaves the
field at its zero value with no error; an in-range cell is converted
per the field's kind — string passthrough; integer, float and boolean
parse with the empty string giving the zero value and a parse failure
giving a conversion error naming the field; any other kind is a
conversion error. -/
theorem mapRowToStruct_binding :
    (∀ f row fm, f.canSet = true → fm f.binding = none →
       processField f row fm = .ok (zeroVal f.kind))
    ∧ (∀ f row fm i, f.canSet = true → fm f.binding = some i → row.length ≤ i →
       processField f row fm = .ok (zeroVal f.kind))
    ∧ (∀ f row fm i v, f.canSet = true → fm f.binding = some i → i < row.length →
       setFieldValue f.kind (row.getD i "") = .ok v → processField f row fm = .ok v)
    ∧ (∀ f row fm i e, f.canSet = true → fm f.binding = some i → i < row.length →
       setFieldValue f.kind (row.getD i "") = .error e →
       processField f row fm = .error ("failed to set field " ++ f.name ++ ": " ++ e))
    ∧ (∀ s, setFieldValue .str s = .ok (.str s))
    ∧ setFieldValue .int "" = .ok (.int 0)
    ∧ (∀ s n, goAtoi s = some n → setFieldValue .int s = .ok (.int n))
    ∧ (∀ s, s ≠ "" → goAtoi s = none → ∃ e, setFieldValue .int s = .error e)
    ∧ setFieldValue .float "" = .ok (.float 0)
    ∧ (∀ s x, goParseFloat s = some x → setFieldValue .float s = .ok (.float x))
    ∧ (∀ s, s ≠ "" → goParseFloat s = none → ∃ e, setFieldValue .float s = .error e)
    ∧ setFieldValue .bool "" = .ok (.bool false)
    ∧ (∀ s b, goParseBool s = some b → setFieldValue .bool s = .ok (.bool b))
    ∧ (∀ s, s ≠ "" → goParseBool s = none → ∃ e, setFieldValue .bool s = .error e)
    ∧ (∀ s, ∃ e, setFieldValue .other s = .error e)
    ∧ (∀ fields row fm, mapRowToStruct fields row fm
        = fields.mapM (fun f => processField f row fm)) := by
  have hstr : ∀ s x, goParseFloat s = some x → s ≠ "" := by
    intro s x h hs
    subst hs
    simp [goParseFloat] at h
  refine ⟨?_, ?_, ?_, ?_, fun s => rfl, rfl, ?_, ?_, rfl, ?_, ?_, rfl, ?_, ?_,
    fun s => ⟨_, rfl⟩, fun fields row fm => rfl⟩
  · intro f row fm hset hnone; simp [processField, hset, hnone]
  · intro f row fm i hset hsome hlen; simp [processField, hset, hsome, hlen]
  · intro f row fm i v hset hsome hlen hok
    have hr : ¬ (row.length ≤ i) := by omega
    simp only [List.getD_eq_getElem?_getD] at hok
    simp [processField, hset, hsome, hr, hok]
  · intro f row fm i e hset hsome hlen herr
    have hr : ¬ (row.length ≤ i) := by omega
    simp only [List.getD_eq_getElem?_getD] at herr
    simp [processField, hset, hsome, hr, herr]
  · intro s n h
    have hne0 : s ≠ "" := by
      intro hs; subst hs; simp [goAtoi] at h
    simp [setFieldValue, hne0, h]
  · intro s hs h
    exact ⟨"parsing " ++ s ++ ": invalid syntax", by simp [setFieldValue, hs, h]⟩
  · intro s x h
    simp [setFieldValue, hstr s x h, h]
  · intro s hs h
    exact ⟨"parsing " ++ s ++ ": invalid syntax", by simp [setFieldValue, hs, h]⟩
  · intro s b h
    have hne : s ≠ "" := by
      intro hs; subst hs; simp [goParseBool] at h
    simp [setFieldValue, hne, h]
  · intro s hs h
    exact ⟨"parsing " ++ s ++ ": invalid syntax", by simp [setFieldValue, hs, h]⟩

/-- Witness for C8: binding a field whose column is absent from the
header leaves the zero value of its kind. -/
theorem mapRowToStruct_binding_witness :
    processField ⟨"Nope", "", FieldKind.int, true⟩ ["5"] (buildFieldMap ["A"])
      = .ok (zeroVal FieldKind.int) :=
  mapRowToStruct_binding.1 ⟨"Nope", "", FieldKind.int, true⟩ ["5"] (buildFieldMap ["A"])
    rfl (by rfl)

/-- The update/delete scan collects no row exactly when no data row
satisfies the predicates. -/
theorem collectMatches_eq_nil (q : Query) (fm : String → Option Nat) :
    ∀ (rows : List (List String)) (k : Nat),
      (collectMatches q fm rows k = [] ↔ ∀ row ∈ rows, q.matchesWhere row fm = false) := by
  intro rows
  induction rows with
  | nil => intro k; simp [collectMatches]
  | cons r rest ih =>
    intro k
    cases hb : q.matchesWhere r fm with
    | true => simp [collectMatches, hb]
    | false => simp [collectMatches, hb, ih (k + 1)]

/-- Claim C9: an `Update` or `Delete` whose WHERE predicates match no
data row returns the no-match error instead of silently succeeding;
when at least one row matches (writes being modelled as succeeding)
no such error is returned. -/
theorem update_delete_no_match_error :
    ∀ (q : Query) (headers : List String) (dataRows : List (List String))
      (data : List DataField),
    ((∀ row ∈ dataRows, q.matchesWhere row (buildFieldMap headers) = false) →
       Query.Update q (headers :: dataRows) data = .error "no rows matched the where conditions"
       ∧ Query.Delete q (headers :: dataRows) = .error "no rows matched the where conditions")
    ∧ ((∃ row ∈ dataRows, q.matchesWhere row (buildFieldMap headers) = true) →
       (∃ out, Query.Update q (headers :: dataRows) data = .ok out)
       ∧ (∃ out, Query.Delete q (headers :: dataRows) = .ok out)) := by
  intro q headers dataRows data
  constructor
  · intro h
    have hnil : collectMatches q (buildFieldMap headers) dataRows 0 = [] :=
      (collectMatches_eq_nil q (buildFieldMap headers) dataRows 0).mpr h
    exact ⟨by simp [Query.Update, hnil], by simp [Query.Delete, hnil]⟩
  · intro h
    obtain ⟨row, hmem, hmatch⟩ := h
    have hne : collectMatches q (buildFieldMap headers) dataRows 0 ≠ [] := by
      intro hnil
      have hfalse := (collectMatches_eq_nil q (buildFieldMap headers) dataRows 0).mp hnil row hmem
      rw [hmatch] at hfalse
      exact Bool.noConfusion hfalse
    cases hcm : collectMatches q (buildFieldMap headers) dataRows 0 with
    | nil => exact absurd hcm hne
    | cons p t =>
      refine ⟨⟨(p :: t).map (fun p => (p.1, updateRow headers (buildFieldMap headers) data p.2)),
        ?_⟩, ⟨((p :: t).map (fun p => p.1)).reverse, ?_⟩⟩
      · simp [Query.Update, hcm]
      · simp [Query.Delete, hcm]

/-- Witness for C9: a concrete update and delete whose single data row
fails the predicate return the no-match error. -/
theorem update_delete_witness :
    Query.Update ⟨"T", [⟨"A", "=", GoValue.str "y"⟩], 0, 0⟩ [["A"], ["x"]] []
      = .error "no rows matched the where conditions"
    ∧ Query.Delete ⟨"T", [⟨"A", "=", GoValue.str "y"⟩], 0, 0⟩ [["A"], ["x"]]
      = .error "no rows matched the where conditions" :=
  (update_delete_no_match_error ⟨"T", [⟨"A", "=", GoValue.str "y"⟩], 0, 0⟩ ["A"] [["x"]] []).1
    (by decide)

/-- A successful pass of the `Get` row loop only ever appends to the
destination slice, and a positive limit caps the total slice length. -/
theorem getLoop_grows (q : Query) (fm : String → Option Nat) (fields : List FieldSpec) :
    ∀ (rows : List (List String)) (i : Nat) (acc out : List (List FieldVal)),
      getLoop q fm fields rows i acc = .ok out →
      ∃ tail, out = acc ++ tail ∧
        (0 < q.limit → (tail.length : Int) ≤ max 0 (q.limit - acc.length)) := by
  intro rows
  induction rows with
  | nil =>
    intro i acc out h
    simp only [getLoop, Except.ok.injEq] at h
    exact ⟨[], by simp [h], fun _ => by simp⟩
  | cons row rest ih =>
    intro i acc out h
    simp only [getLoop] at h
    by_cases h1 : q.matchesWhere row fm = false
    · rw [if_pos h1] at h
      exact ih _ _ _ h
    · rw [if_neg h1] at h
      by_cases h2 : 0 < q.offset ∧ (i : Int) < q.offset
      · rw [if_pos h2] at h
        exact ih _ _ _ h
      · rw [if_neg h2] at h
        by_cases h3 : 0 < q.limit ∧ q.limit ≤ (acc.length : Int)
        · rw [if_pos h3] at h
          simp only [Except.ok.injEq] at h
          exact ⟨[], by simp [h], fun _ => by simp⟩
        · rw [if_neg h3] at h
          cases hm : mapRowToStruct fields row fm with
          | error e =>
            rw [hm] at h
            exact Except.noConfusion h
          | ok elem =>
            rw [hm] at h
            obtain ⟨t, ht, hb⟩ := ih _ _ _ h
            refine ⟨elem :: t, by simp [ht], ?_⟩
            intro hlim
            have hb' := hb hlim
            have hlt : (acc.length : Int) < q.limit := by
              by_contra hge
              exact h3 ⟨hlim, by omega⟩
            simp only [List.length_append, List.length_cons, List.length_nil] at hb' ⊢
            rcases le_max_iff.mp hb' with h0 | h0 <;>
              · refine le_max_iff.mpr (Or.inr ?_)
                push_cast at h0 ⊢
                omega

/-- Claim C10: `Get` appends matched rows to the caller-supplied
destination slice without clearing it, and the limit check compares
the slice's total length against the limit, so pre-existing elements
count against the limit budget: the destination is always a prefix of
the result, and with a positive limit the result never grows beyond
`max dest.length limit` elements. -/
theorem get_appends_respecting_limit :
    ∀ (q : Query) (values : List (List String)) (fields : List FieldSpec)
      (dest out : List (List FieldVal)),
      Query.Get q values fields dest = .ok out →
      dest.isPrefixOf out = true
      ∧ (0 < q.limit → (out.length : Int) ≤ max (dest.length : Int) q.limit) := by
  intro q values fields dest out h
  have key : ∃ tail, out = dest ++ tail ∧
      (0 < q.limit → (tail.length : Int) ≤ max 0 (q.limit - dest.length)) := by
    cases values with
    | nil =>
      simp only [Query.Get, Except.ok.injEq] at h
      exact ⟨[], by simp [h], fun _ => by simp⟩
    | cons headers dataRows => exact getLoop_grows q _ fields dataRows 0 dest out h
  obtain ⟨tail, ht, hb⟩ := key
  subst ht
  constructor
  · rw [List.isPrefixOf_iff_prefix]
    exact ⟨tail, rfl⟩
  · intro hlim
    have hb' := hb hlim
    simp only [List.length_append]
    push_cast
    rcases le_max_iff.mp hb' with h0 | h0 <;> omega

/-- Witness for C10: with one pre-existing element and limit 2, the
result keeps the element as a prefix and stops at two elements. -/
theorem get_appends_witness :
    ([[FieldVal.str "seed"]] : List (List FieldVal)).isPrefixOf
        [[FieldVal.str "seed"], [FieldVal.str "0"]] = true
    ∧ (0 < (⟨"T", [], 2, 0⟩ : Query).limit →
        (([[FieldVal.str "seed"], [FieldVal.str "0"]] : List (List FieldVal)).length : Int)
          ≤ max (([[FieldVal.str "seed"]] : List (List FieldVal)).length : Int)
              (⟨"T", [], 2, 0⟩ : Query).limit) :=
  get_appends_respecting_limit ⟨"T", [], 2, 0⟩ [["I"], ["0"], ["1"], ["2"]]
    [⟨"I", "", FieldKind.str, true⟩] [[FieldVal.str "seed"]]
    [[FieldVal.str "seed"], [FieldVal.str "0"]] (by rfl)

end SheetSQL
